import Mathlib

/-!
Shallow embedding of the kenku-file-watcher repository (src/index.ts and
src/kenku.ts). JavaScript strings are modeled as `List Char`. Configured
directory names are treated as literal strings (the regexes the source builds
from them are interpreted with the names as literal text, which is the
intended configuration). All definitions are executable.
-/

namespace Kenku

/-- Boolean test that the first list is an initial segment of the second
(the anchored-at-start part of a JavaScript `path.match` with a `^...` regex). -/
def isStartOf : List Char → List Char → Bool
  | [], _ => true
  | _ :: _, [] => false
  | a :: as, b :: bs => a == b && isStartOf as bs

/-- JavaScript `s.includes(sub)`: `sub` occurs somewhere in `s`. -/
def containsSub : List Char → List Char → Bool
  | [], sub => isStartOf sub []
  | c :: t, sub => isStartOf sub (c :: t) || containsSub t sub

/-- Boolean test that `suf` is a final segment of `s`. -/
def endsWith (s suf : List Char) : Bool := isStartOf suf.reverse s.reverse

/-- Characters matched by the source's `folderRegex = '[a-zA-Z0-9 -]+'`:
letters, digits, space, and a literal hyphen (a trailing `-` inside a
JavaScript character class is a literal hyphen). -/
def isFolderChar (c : Char) : Bool :=
  ('a' ≤ c && c ≤ 'z') || ('A' ≤ c && c ≤ 'Z') || ('0' ≤ c && c ≤ '9') || c == ' ' || c == '-'

/-- Characters matched by the source's `fileRegex = '[a-zA-Z0-9 -\\.]+'`.
Inside a JavaScript character class the fragment ` -\.` is a RANGE from
space (0x20) to dot (0x2E), so this class is letters, digits, and every
ASCII character from space through dot (space ! " # $ % & the apostrophe
( ) * + , - .). In particular it allows any number of dots. -/
def isFileChar (c : Char) : Bool :=
  ('a' ≤ c && c ≤ 'z') || ('A' ≤ c && c ≤ 'Z') || ('0' ≤ c && c ≤ '9') || (' ' ≤ c && c ≤ '.')

/-- The `DirectoriesConfig` interface of src/index.ts: a root path and
optional playlists / soundboards subdirectory names. An absent or empty
name falls back to a default (JavaScript `directories.playlists ||
DEFAULT_PLAYLIST_DIR`, where the empty string is falsy). -/
structure DirectoriesConfig where
  root : List Char
  playlists : Option (List Char)
  soundboards : Option (List Char)
deriving DecidableEq

/-- Constant `DEFAULT_PLAYLIST_DIR` from src/index.ts. -/
def DEFAULT_PLAYLIST_DIR : List Char := "Playlists".data

/-- Constant `DEFAULT_SOUNDBOARDS_DIR` from src/index.ts. -/
def DEFAULT_SOUNDBOARDS_DIR : List Char := "Soundboards".data

/-- Expression `directories.playlists || DEFAULT_PLAYLIST_DIR` (JavaScript `||`:
`undefined` and the empty string both fall back to the default). -/
def playlistsName (dirs : DirectoriesConfig) : List Char :=
  match dirs.playlists with
  | none => DEFAULT_PLAYLIST_DIR
  | some p => if p = [] then DEFAULT_PLAYLIST_DIR else p

/-- Expression `directories.soundboards || DEFAULT_SOUNDBOARDS_DIR`. -/
def soundboardsName (dirs : DirectoriesConfig) : List Char :=
  match dirs.soundboards with
  | none => DEFAULT_SOUNDBOARDS_DIR
  | some s => if s = [] then DEFAULT_SOUNDBOARDS_DIR else s

/-- One alternative of `validateDirectory`'s regex
`^root/(p|s)/([a-zA-Z0-9 -]+)$`: the path must start with `root/alt/` and the
remainder (capture group 2) must be a nonempty run of folder characters.
Because the folder class excludes `/`, the regex engine has no other way to
match this alternative. -/
def matchDirAlt (root alt path : List Char) : Option (List Char) :=
  let pre := root ++ ('/' :: (alt ++ ['/']))
  if isStartOf pre path then
    let rest := path.drop pre.length
    if !rest.isEmpty && rest.all isFolderChar then some rest else none
  else none

/-- Function `validateDirectory` from src/index.ts: match
`^root/(playlists|soundboards)/([a-zA-Z0-9 -]+)$` and return capture group 2.
The regex alternation tries the playlists name first, then the soundboards
name, exactly as `(p|s)` backtracks. -/
def validateDirectory (dirs : DirectoriesConfig) (path : List Char) : Option (List Char) :=
  match matchDirAlt dirs.root (playlistsName dirs) path with
  | some x => some x
  | none => matchDirAlt dirs.root (soundboardsName dirs) path

/-- The `folderRegex/(fileRegex)$` tail of `validateFile`'s regex: the
remainder after `root/alt/` must be `coll/item` where `coll` is a nonempty
run of folder characters up to the first `/` and `item` (capture group 2)
is a nonempty run of file characters reaching the end. Neither class
contains `/`, so the split point is forced to the first `/`. -/
def matchCollItem (rest : List Char) : Option (List Char) :=
  let coll := rest.takeWhile (fun c => c != '/')
  match rest.dropWhile (fun c => c != '/') with
  | '/' :: item =>
    if !coll.isEmpty && coll.all isFolderChar && !item.isEmpty && item.all isFileChar then
      some item
    else none
  | _ => none

/-- One alternative of `validateFile`'s regex
`^root/(p|s)/[a-zA-Z0-9 -]+/([a-zA-Z0-9 -\.]+)$`. -/
def matchFileAlt (root alt path : List Char) : Option (List Char) :=
  let pre := root ++ ('/' :: (alt ++ ['/']))
  if isStartOf pre path then matchCollItem (path.drop pre.length) else none

/-- Function `validateFile` from src/index.ts: match
`^root/(playlists|soundboards)/[a-zA-Z0-9 -]+/([a-zA-Z0-9 -\.]+)$` and return
capture group 2 (the final path segment). -/
def validateFile (dirs : DirectoriesConfig) (path : List Char) : Option (List Char) :=
  match matchFileAlt dirs.root (playlistsName dirs) path with
  | some x => some x
  | none => matchFileAlt dirs.root (soundboardsName dirs) path

/-- The whitespace characters removed by JavaScript `String.prototype.trim`
(restricted to the ASCII range; only the plain space can occur in a name
accepted by `validateFile`). -/
def isJsWs (c : Char) : Bool :=
  c == ' ' || c == '\t' || c == '\n' || c == '\r' || c == '\x0b' || c == '\x0c'

/-- JavaScript `s.trim()`: drop whitespace from both ends. -/
def jsTrim (l : List Char) : List Char :=
  ((l.dropWhile isJsWs).reverse.dropWhile isJsWs).reverse

/-- Index of the first occurrence of `c`, or the length of the list when `c`
is absent (so that `take (idxOfChar c l) l` removes everything from the first
occurrence onward, like JavaScript `slice(0, indexOf(c))` when present). -/
def idxOfChar (c : Char) : List Char → Nat
  | [] => 0
  | b :: bs => if b == c then 0 else idxOfChar c bs + 1

/-- JavaScript `s.includes('.')` specialised to one character. -/
def containsChar (c : Char) : List Char → Bool
  | [] => false
  | b :: bs => b == c || containsChar c bs

/-- Function `removeFileType` from src/index.ts. Note the slice bound: the name is
trimmed first, but the dot index is computed on the UNtrimmed name. -/
def removeFileType (fileName : List Char) : List Char :=
  let clean :=
    if containsChar '.' fileName then (jsTrim fileName).take (idxOfChar '.' fileName)
    else jsTrim fileName
  if (jsTrim clean).length = 0 then "UnknownTitle".data else clean

/-- Characters `encodeURI` leaves unescaped: letters, digits, the marks
`- _ . ! ~ * ( )` and the apostrophe, the reserved set `; / ? : @ & = + $ ,`
and `#`. -/
def isUriKept (c : Char) : Bool :=
  ('a' ≤ c && c ≤ 'z') || ('A' ≤ c && c ≤ 'Z') || ('0' ≤ c && c ≤ '9') ||
  c == '-' || c == '_' || c == '.' || c == '!' || c == '~' || c == '*' ||
  c == Char.ofNat 39 || c == '(' || c == ')' ||
  c == ';' || c == '/' || c == '?' || c == ':' || c == '@' || c == '&' ||
  c == '=' || c == '+' || c == '$' || c == ',' || c == '#'

/-- Uppercase hexadecimal digit. -/
def hexDigit (n : Nat) : Char :=
  if n < 10 then Char.ofNat (48 + n) else Char.ofNat (55 + n)

/-- UTF-8 bytes of one character (what `encodeURI` percent-encodes). -/
def utf8Bytes (c : Char) : List Nat :=
  let n := c.toNat
  if n < 0x80 then [n]
  else if n < 0x800 then [0xC0 + n / 0x40, 0x80 + n % 0x40]
  else if n < 0x10000 then [0xE0 + n / 0x1000, 0x80 + (n / 0x40) % 0x40, 0x80 + n % 0x40]
  else [0xF0 + n / 0x40000, 0x80 + (n / 0x1000) % 0x40, 0x80 + (n / 0x40) % 0x40, 0x80 + n % 0x40]

/-- Percent-encode one byte as `%XX`. -/
def percentByte (b : Nat) : List Char := ['%', hexDigit (b / 16), hexDigit (b % 16)]

/-- JavaScript `encodeURI`: keep unreserved and reserved characters, percent-
encode the UTF-8 bytes of everything else. Slashes are kept. -/
def encodeURI (l : List Char) : List Char :=
  l.flatMap fun c => if isUriKept c then [c] else (utf8Bytes c).flatMap percentByte

/-- Function `prepareFilePath` from src/index.ts: prefix `file://` to the
`encodeURI`-encoded path. -/
def prepareFilePath (path : List Char) : List Char := "file://".data ++ encodeURI path

/-- Function `cleanUrl` from src/index.ts: if the last character is `/`, drop it,
otherwise return the path unchanged (`charAt` of the empty string is the
empty string, which is not `/`). -/
def cleanUrl (path : List Char) : List Char :=
  if path.getLast? = some '/' then path.dropLast else path

/-- JavaScript `path.replace(pat, '')` with a string pattern: delete the
FIRST occurrence of `pat`, or return the path unchanged when `pat` does not
occur (and when `pat` is empty, insert nothing at the front). -/
def replaceFirst (pat : List Char) : List Char → List Char
  | [] => []
  | c :: cs => if isStartOf pat (c :: cs) then (c :: cs).drop pat.length else c :: replaceFirst pat cs

/-- Number of positions of `s` at which `pat` starts (occurrences of `pat`
as a substring, counting overlaps). -/
def occCount (pat s : List Char) : Nat :=
  ((List.range (s.length + 1)).filter fun i => isStartOf pat (s.drop i)).length

/-- The four chokidar event kinds pushed into the queue by src/index.ts. -/
inductive EventAction
  | add
  | addDir
  | unlink
  | unlinkDir
deriving DecidableEq

/-- A queued filesystem event (`{ action, path }` in src/index.ts). -/
structure Event where
  action : EventAction
  path : List Char
deriving DecidableEq

/-- The remote operations of src/kenku.ts, with the request bodies the
watcher sends (title, url, collection url, and for `addSound` the fixed
fadeIn / fadeOut / loop / volume fields). -/
inductive RemoteCall
  | addTrack (title url playlistUrl : List Char)
  | addSound (title url soundboardUrl : List Char) (fadeIn fadeOut : Nat) (loop : Bool) (volume : Nat)
  | addPlaylist (title url : List Char)
  | addSoundboard (title url : List Char)
  | removeTrack (trackUrl playlistUrl : List Char)
  | removeSound (soundUrl soundboardUrl : List Char)
  | removePlaylist (url : List Char)
  | removeSoundboard (url : List Char)
deriving DecidableEq

/-- The remote calls the `handleQueue` dispatch issues for one event when the
activation gate passes: validate the path, then branch on event kind and on
whether the path contains the configured playlists directory name. -/
def dispatch (dirs : DirectoriesConfig) (e : Event) : List RemoteCall :=
  match e.action with
  | .add =>
    match validateFile dirs e.path with
    | some f =>
      [if containsSub e.path (playlistsName dirs) then
        RemoteCall.addTrack (removeFileType f) (cleanUrl (prepareFilePath e.path))
          (cleanUrl (replaceFirst f e.path))
      else
        RemoteCall.addSound (removeFileType f) (cleanUrl (prepareFilePath e.path))
          (cleanUrl (replaceFirst f e.path)) 500 500 true 100]
    | none => []
  | .addDir =>
    match validateDirectory dirs e.path with
    | some d =>
      [if containsSub e.path (playlistsName dirs) then
        RemoteCall.addPlaylist d (cleanUrl e.path)
      else
        RemoteCall.addSoundboard d (cleanUrl e.path)]
    | none => []
  | .unlink =>
    match validateFile dirs e.path with
    | some f =>
      [if containsSub e.path (playlistsName dirs) then
        RemoteCall.removeTrack (cleanUrl (prepareFilePath e.path)) (cleanUrl (replaceFirst f e.path))
      else
        RemoteCall.removeSound (cleanUrl (prepareFilePath e.path)) (cleanUrl (replaceFirst f e.path))]
    | none => []
  | .unlinkDir =>
    match validateDirectory dirs e.path with
    | some d =>
      [if containsSub e.path (playlistsName dirs) then
        RemoteCall.removePlaylist (cleanUrl e.path)
      else
        RemoteCall.removeSoundboard (cleanUrl e.path)]
    | none => []

/-- Function `handleQueue` from src/index.ts: if the queue is nonempty, shift one
event from the head and process it. Each case validates the path, and only
when `ACTIVATED && valid` issues its remote call (`catch console.log` makes
the call fire-and-forget; the call itself is recorded as output). Returns
the remaining queue and the list of remote calls issued. -/
def handleQueue (dirs : DirectoriesConfig) (activated : Bool) :
    List Event → List Event × List RemoteCall
  | [] => ([], [])
  | e :: rest =>
    match e.action with
    | .add =>
      match validateFile dirs e.path with
      | some f =>
        if activated then
          (rest,
            [if containsSub e.path (playlistsName dirs) then
              RemoteCall.addTrack (removeFileType f) (cleanUrl (prepareFilePath e.path))
                (cleanUrl (replaceFirst f e.path))
            else
              RemoteCall.addSound (removeFileType f) (cleanUrl (prepareFilePath e.path))
                (cleanUrl (replaceFirst f e.path)) 500 500 true 100])
        else (rest, [])
      | none => (rest, [])
    | .addDir =>
      match validateDirectory dirs e.path with
      | some d =>
        if activated then
          (rest,
            [if containsSub e.path (playlistsName dirs) then
              RemoteCall.addPlaylist d (cleanUrl e.path)
            else
              RemoteCall.addSoundboard d (cleanUrl e.path)])
        else (rest, [])
      | none => (rest, [])
    | .unlink =>
      match validateFile dirs e.path with
      | some f =>
        if activated then
          (rest,
            [if containsSub e.path (playlistsName dirs) then
              RemoteCall.removeTrack (cleanUrl (prepareFilePath e.path))
                (cleanUrl (replaceFirst f e.path))
            else
              RemoteCall.removeSound (cleanUrl (prepareFilePath e.path))
                (cleanUrl (replaceFirst f e.path))])
        else (rest, [])
      | none => (rest, [])
    | .unlinkDir =>
      match validateDirectory dirs e.path with
      | some d =>
        if activated then
          (rest,
            [if containsSub e.path (playlistsName dirs) then
              RemoteCall.removePlaylist (cleanUrl e.path)
            else
              RemoteCall.removeSoundboard (cleanUrl e.path)])
        else (rest, [])
      | none => (rest, [])

/-- The process-wide mutable state relevant to the watcher: the `ACTIVATED`
flag and the event queue (both globals in src/index.ts). -/
structure SysState where
  gate : Bool
  queue : List Event
deriving DecidableEq

/-- The operations that touch that state during a run of `watch`: the
chokidar handlers push events (`enqueue`), the chokidar `ready` handler sets
`ACTIVATED = true`, and each `setInterval` tick runs `handleQueue`. -/
inductive Op
  | enqueue (e : Event)
  | ready
  | tick
deriving DecidableEq

/-- Effect of one operation on the state, together with the remote calls it
issues. -/
def stepOp (dirs : DirectoriesConfig) (s : SysState) : Op → SysState × List RemoteCall
  | .enqueue e => (⟨s.gate, s.queue ++ [e]⟩, [])
  | .ready => (⟨true, s.queue⟩, [])
  | .tick =>
    let r := handleQueue dirs s.gate s.queue
    (⟨s.gate, r.1⟩, r.2)

/-- Run a sequence of operations from a state, collecting all remote calls
in order. `watch(backfill, ...)` starts this system in state
`⟨backfill, []⟩` (it sets `ACTIVATED = backfill`; the queue starts empty). -/
def runOps (dirs : DirectoriesConfig) : SysState → List Op → SysState × List RemoteCall
  | s, [] => (s, [])
  | s, o :: rest =>
    let r := stepOp dirs s o
    let r2 := runOps dirs r.1 rest
    (r2.1, r.2 ++ r2.2)

/-- Whether an operation is the watcher's scan-complete signal. -/
def isReadyOp : Op → Bool
  | .ready => true
  | _ => false

/-- An element of the remote playlist listing (src/index.ts `purge` uses
only the `url` field of each listed playlist). -/
structure RemotePlaylist where
  url : List Char
deriving DecidableEq

/-- An element of the remote soundboard listing. -/
structure RemoteSoundboard where
  url : List Char
deriving DecidableEq

/-- The remote state read by `purge`: the playlists returned by
`listPlaylists` and the soundboards returned by `listSoundboards`. -/
structure RemoteState where
  playlists : List RemotePlaylist
  soundboards : List RemoteSoundboard
deriving DecidableEq

/-- One step of the awaited trace `purge` produces: a remote call or a
`delay(ms)` pause. -/
inductive Effect
  | call (c : RemoteCall)
  | delay (ms : Nat)
deriving DecidableEq

/-- Function `purge` from src/index.ts as the trace of awaited effects it performs:
for each listed playlist, `removePlaylist(url)` then `delay(500)`; then for
each listed soundboard, `removeSoundboard(url)` then `delay(500)`. -/
def purge (st : RemoteState) : List Effect :=
  (st.playlists.flatMap fun p => [Effect.call (RemoteCall.removePlaylist p.url), Effect.delay 500]) ++
  (st.soundboards.flatMap fun s => [Effect.call (RemoteCall.removeSoundboard s.url), Effect.delay 500])

/-- Extract the url of a `removePlaylist` effect. -/
def removedPlaylistUrl : Effect → Option (List Char)
  | .call (RemoteCall.removePlaylist u) => some u
  | _ => none

/-- Extract the url of a `removeSoundboard` effect. -/
def removedSoundboardUrl : Effect → Option (List Char)
  | .call (RemoteCall.removeSoundboard u) => some u
  | _ => none

/-- Whether an effect is one of purge's removal calls. -/
def isRemovalEff : Effect → Bool
  | .call (RemoteCall.removePlaylist _) => true
  | .call (RemoteCall.removeSoundboard _) => true
  | _ => false

/-- Every removal in the trace is immediately followed by the fixed
`delay 500` pause. -/
def delayFollows (l : List Effect) : Prop :=
  ∀ i a, l.get? i = some a → isRemovalEff a = true → l.get? (i + 1) = some (Effect.delay 500)

/-- Function `callKenku` from src/kenku.ts, modeled on an already-received response:
the body is decoded, then a status of 400 or more raises an error carrying
the decoded body, otherwise the decoded body is returned. -/
def callKenku {α : Type} (status : Nat) (body : α) : Except α α :=
  if 400 ≤ status then Except.error body else Except.ok body

/-- Modelled from the spec: the file-path grammar exactly as claim C3 words
it — `<root>/(<playlistsDirName>|<soundboardsDirName>)/<collectionName>/<itemName>`
where collection names allow only letters, digits, spaces and hyphens, and
item names additionally permit a SINGLE literal dot. This is the spec-side
definition used to compare the claim's grammar with the source's
`validateFile`; it is not part of the source. -/
def specClaimItemChar (c : Char) : Bool := isFolderChar c || c == '.'

/-- Modelled from the spec: item name validity under claim C3's grammar
(folder characters plus at most one dot). -/
def specClaimItemOk (item : List Char) : Bool :=
  !item.isEmpty && item.all specClaimItemChar && (item.filter fun c => c == '.').length ≤ 1

/-- Modelled from the spec: one alternative of claim C3's three-segment file
grammar. -/
def specClaimFileAlt (root alt path : List Char) : Bool :=
  let pre := root ++ ('/' :: (alt ++ ['/']))
  isStartOf pre path &&
    (let rest := path.drop pre.length
     let coll := rest.takeWhile (fun c => c != '/')
     match rest.dropWhile (fun c => c != '/') with
     | '/' :: item => !coll.isEmpty && coll.all isFolderChar && specClaimItemOk item
     | _ => false)

/-- Modelled from the spec: claim C3's three-segment file grammar over both
configured subdirectory names. -/
def specClaimFileGrammar (dirs : DirectoriesConfig) (path : List Char) : Bool :=
  specClaimFileAlt dirs.root (playlistsName dirs) path ||
  specClaimFileAlt dirs.root (soundboardsName dirs) path

/-- The configuration used by the spec's worked example and the concrete
theorems below: root `/r`, default subdirectory names. -/
def exDirs : DirectoriesConfig := ⟨"/r".data, none, none⟩

/-- The example track path from the spec. -/
def songPath : List Char := "/r/Playlists/Jazz/Song 1.mp3".data

/-- Modelled from the spec: the title formula claim C4 states — the segment
with everything from the first `.` onward removed (unchanged when there is
no dot). -/
def specStripDot (seg : List Char) : List Char := seg.take (idxOfChar '.' seg)

/-- Modelled from the spec: an empty or whitespace-only string. -/
def wsOnly (l : List Char) : Bool := l.all isJsWs

/-- The collection url carried by a remote call about a file item (the
playlistUrl of track calls, the soundboardUrl of sound calls). -/
def collectionUrlOf : RemoteCall → Option (List Char)
  | .addTrack _ _ pl => some pl
  | .addSound _ _ sb _ _ _ _ => some sb
  | .removeTrack _ pl => some pl
  | .removeSound _ sb => some sb
  | _ => none

/-- A small concrete remote state used by the purge witness. -/
def exRemote : RemoteState := ⟨[⟨"/p1".data⟩], [⟨"/s1".data⟩]⟩

/-! ## Helper lemmas -/

theorem isStartOf_iff (pre : List Char) : ∀ s, isStartOf pre s = true ↔ ∃ t, s = pre ++ t := by
  induction pre with
  | nil => intro s; simp [isStartOf]
  | cons a as ih =>
    intro s
    cases s with
    | nil => simp [isStartOf]
    | cons b bs =>
      simp only [isStartOf, Bool.and_eq_true, beq_iff_eq, List.cons_append]
      constructor
      · rintro ⟨rfl, h⟩
        obtain ⟨t, rfl⟩ := (ih bs).mp h
        exact ⟨t, rfl⟩
      · rintro ⟨t, h⟩
        injection h with h1 h2
        exact ⟨h1.symm, (ih bs).mpr ⟨t, h2⟩⟩

theorem cleanUrl_concat_slash (q : List Char) : cleanUrl (q ++ ['/']) = q := by
  simp [cleanUrl, List.getLast?_concat, List.dropLast_concat]

theorem cleanUrl_of_non_slash (q : List Char) (b : Char) (hb : b ≠ '/') :
    cleanUrl (q ++ [b]) = q ++ [b] := by
  simp [cleanUrl, List.getLast?_concat, hb]

theorem handleQueue_gate_false (dirs : DirectoriesConfig) (q : List Event) :
    handleQueue dirs false q = (q.drop 1, []) := by
  cases q with
  | nil => simp [handleQueue]
  | cons e rest =>
    cases e with
    | mk act path =>
      cases act with
      | add => cases hv : validateFile dirs path <;> simp [handleQueue, hv]
      | addDir => cases hv : validateDirectory dirs path <;> simp [handleQueue, hv]
      | unlink => cases hv : validateFile dirs path <;> simp [handleQueue, hv]
      | unlinkDir => cases hv : validateDirectory dirs path <;> simp [handleQueue, hv]

theorem handleQueue_gate_true (dirs : DirectoriesConfig) (e : Event) (rest : List Event) :
    handleQueue dirs true (e :: rest) = (rest, dispatch dirs e) := by
  cases e with
  | mk act path =>
    cases act with
    | add => cases hv : validateFile dirs path <;> simp [handleQueue, dispatch, hv]
    | addDir => cases hv : validateDirectory dirs path <;> simp [handleQueue, dispatch, hv]
    | unlink => cases hv : validateFile dirs path <;> simp [handleQueue, dispatch, hv]
    | unlinkDir => cases hv : validateDirectory dirs path <;> simp [handleQueue, dispatch, hv]

theorem runOps_gate (dirs : DirectoriesConfig) :
    ∀ (ops : List Op) (s : SysState), (runOps dirs s ops).1.gate = (s.gate || ops.any isReadyOp) := by
  intro ops
  induction ops with
  | nil => intro s; simp [runOps]
  | cons o rest ih =>
    intro s
    cases o with
    | enqueue e => simp [runOps, stepOp, ih, isReadyOp]
    | ready => simp [runOps, stepOp, ih, isReadyOp]
    | tick => simp [runOps, stepOp, ih, isReadyOp]

/-! ## Claim theorems -/

/-- C1 (amended): while the ActivationGate is false, processing any number of
queue ticks issues zero remote calls and still removes each dequeued event
from the queue; and the gate is checked at dequeue time, so an event dequeued
while the gate is true is fully processed (its dispatch issued) regardless of
the gate value when it was enqueued. -/
theorem activation_gate_checked_at_dequeue :
    (∀ (dirs : DirectoriesConfig) (q : List Event) (n : Nat),
      (runOps dirs ⟨false, q⟩ (List.replicate n Op.tick)).2 = [] ∧
      (runOps dirs ⟨false, q⟩ (List.replicate n Op.tick)).1.queue = q.drop n) ∧
    (∀ (dirs : DirectoriesConfig) (e : Event) (q : List Event),
      handleQueue dirs true (e :: q) = (q, dispatch dirs e)) := by
  constructor
  · intro dirs q n
    induction n generalizing q with
    | zero => simp [runOps]
    | succ n ih =>
      have h1 := (ih (q.drop 1)).1
      have h2 := (ih (q.drop 1)).2
      have hrw : List.replicate (n + 1) Op.tick = Op.tick :: List.replicate n Op.tick :=
        List.replicate_succ Op.tick n
      constructor
      · rw [hrw]
        simp only [runOps, stepOp, handleQueue_gate_false]
        simpa using h1
      · rw [hrw]
        simp only [runOps, stepOp, handleQueue_gate_false]
        rw [h2, List.drop_drop, Nat.add_comm]
  · intro dirs e q
    exact handleQueue_gate_true dirs e q

/-- C1 counterexample: an event sitting in the queue while the gate is false
(enqueued before the flip) is NOT discarded when it is dequeued after the
`ready` flip — the tick after `ready` issues its remote call. -/
theorem event_dequeued_after_flip_not_discarded :
    (runOps exDirs ⟨false, [⟨EventAction.add, songPath⟩]⟩ [Op.ready, Op.tick]).2 =
      [RemoteCall.addTrack "Song 1".data "file:///r/Playlists/Jazz/Song%201.mp3".data
        "/r/Playlists/Jazz".data] ∧
    (runOps exDirs ⟨false, [⟨EventAction.add, songPath⟩]⟩ [Op.ready, Op.tick]).2 ≠ [] := by
  decide

/-- C2: a dequeued event that passes the gate and validates dispatches
exactly one remote operation, selected by event kind crossed with the
playlist-vs-soundboard branch, which is chosen by testing whether the path
contains the configured playlists directory name as a substring. -/
theorem dispatch_table (dirs : DirectoriesConfig) (path : List Char) (q : List Event) :
    (∀ f, validateFile dirs path = some f →
      (handleQueue dirs true (⟨EventAction.add, path⟩ :: q)).2 =
        [if containsSub path (playlistsName dirs) then
          RemoteCall.addTrack (removeFileType f) (cleanUrl (prepareFilePath path))
            (cleanUrl (replaceFirst f path))
        else
          RemoteCall.addSound (removeFileType f) (cleanUrl (prepareFilePath path))
            (cleanUrl (replaceFirst f path)) 500 500 true 100] ∧
      (handleQueue dirs true (⟨EventAction.unlink, path⟩ :: q)).2 =
        [if containsSub path (playlistsName dirs) then
          RemoteCall.removeTrack (cleanUrl (prepareFilePath path)) (cleanUrl (replaceFirst f path))
        else
          RemoteCall.removeSound (cleanUrl (prepareFilePath path))
            (cleanUrl (replaceFirst f path))]) ∧
    (∀ d, validateDirectory dirs path = some d →
      (handleQueue dirs true (⟨EventAction.addDir, path⟩ :: q)).2 =
        [if containsSub path (playlistsName dirs) then RemoteCall.addPlaylist d (cleanUrl path)
         else RemoteCall.addSoundboard d (cleanUrl path)] ∧
      (handleQueue dirs true (⟨EventAction.unlinkDir, path⟩ :: q)).2 =
        [if containsSub path (playlistsName dirs) then RemoteCall.removePlaylist (cleanUrl path)
         else RemoteCall.removeSoundboard (cleanUrl path)]) := by
  constructor
  · intro f hf
    constructor <;> simp [handleQueue, hf]
  · intro d hd
    constructor <;> simp [handleQueue, hd]

/-- C2 witness: the dispatch table applied to the spec's example track path. -/
theorem dispatch_table_witness :
    (handleQueue exDirs true [⟨EventAction.add, songPath⟩]).2 =
      [RemoteCall.addTrack "Song 1".data "file:///r/Playlists/Jazz/Song%201.mp3".data
        "/r/Playlists/Jazz".data] := by
  have h := ((dispatch_table exDirs songPath []).1 "Song 1.mp3".data (by decide)).1
  rw [h]
  decide

/-- C5 counterexample: the track's fileUrl is built with `encodeURI`, which
keeps slashes, so it is not the claimed `file://%2Fr%2F...` form. -/
theorem fileUrl_not_fully_percent_encoded :
    (handleQueue exDirs true [⟨EventAction.add, songPath⟩]).2 =
      [RemoteCall.addTrack "Song 1".data (cleanUrl (prepareFilePath songPath))
        "/r/Playlists/Jazz".data] ∧
    cleanUrl (prepareFilePath songPath) ≠ "file://%2Fr%2FPlaylists%2FJazz%2FSong%201.mp3".data := by
  decide

/-- C5 (amended): with root `/r` and the default playlists directory,
`/r/Playlists/Jazz` classifies as the playlist `Jazz`, and
`/r/Playlists/Jazz/Song 1.mp3` dispatches an addTrack with title `Song 1`,
playlistUrl `/r/Playlists/Jazz`, and fileUrl
`file:///r/Playlists/Jazz/Song%201.mp3` (the path `encodeURI`-encoded —
spaces percent-encoded, slashes preserved — behind a `file://` marker). -/
theorem spec_example_classification :
    validateDirectory exDirs "/r/Playlists/Jazz".data = some "Jazz".data ∧
    (handleQueue exDirs true [⟨EventAction.addDir, "/r/Playlists/Jazz".data⟩]).2 =
      [RemoteCall.addPlaylist "Jazz".data "/r/Playlists/Jazz".data] ∧
    (handleQueue exDirs true [⟨EventAction.add, songPath⟩]).2 =
      [RemoteCall.addTrack "Song 1".data "file:///r/Playlists/Jazz/Song%201.mp3".data
        "/r/Playlists/Jazz".data] := by
  decide

/-- C8: callKenku raises an error carrying the decoded body exactly when the
response status is at least 400, and returns the decoded body otherwise. -/
theorem callKenku_status (α : Type) (status : Nat) (body : α) :
    (400 ≤ status → callKenku status body = Except.error body) ∧
    (status < 400 → callKenku status body = Except.ok body) ∧
    (∀ e, callKenku status body = Except.error e → 400 ≤ status ∧ e = body) := by
  refine ⟨fun h => ?_, fun h => ?_, fun e h => ?_⟩
  · simp [callKenku, h]
  · simp [callKenku, Nat.not_le.mpr h]
  · unfold callKenku at h
    split at h
    · next hs => injection h with hb; exact ⟨hs, hb.symm⟩
    · simp at h

/-- C8 witness: a 404 response errors with its body, a 200 response returns
its body. -/
theorem callKenku_status_witness :
    callKenku 404 (0 : Nat) = Except.error 0 ∧ callKenku 200 (0 : Nat) = Except.ok 0 :=
  ⟨(callKenku_status Nat 404 0).1 (by decide), (callKenku_status Nat 200 0).2.1 (by decide)⟩

/-- C9: starting from `watch(backfill, ...)` (gate = backfill, empty queue),
after any sequence of enqueues, ready signals and ticks the gate is true
exactly when the run is a backfill run or a ready signal has occurred: in
watch-only mode it starts false and flips only on scan-complete, in backfill
mode it starts true, the ready handler is idempotent, and once true the gate
never returns to false. -/
theorem activation_gate_lifecycle (dirs : DirectoriesConfig) (backfill : Bool) (ops : List Op) :
    (runOps dirs ⟨backfill, []⟩ ops).1.gate = (backfill || ops.any isReadyOp) :=
  runOps_gate dirs ops ⟨backfill, []⟩

/-- C6 (amended): cleanUrl strips at most one trailing slash, leaving all
other characters unchanged, and it is idempotent on every string that does
not end in two slashes (on a string ending in `//` a second application
strips a second slash). -/
theorem cleanUrl_strip_and_idempotence :
    (∀ x : List Char, cleanUrl x = x ∨ ∃ q, x = q ++ ['/'] ∧ cleanUrl x = q) ∧
    (∀ x : List Char, endsWith x ['/', '/'] = false → cleanUrl (cleanUrl x) = cleanUrl x) := by
  have part1 : ∀ x : List Char, cleanUrl x = x ∨ ∃ q, x = q ++ ['/'] ∧ cleanUrl x = q := by
    intro x
    rcases List.eq_nil_or_concat x with h | ⟨L, b, h⟩
    · subst h
      left
      decide
    · subst h
      rw [List.concat_eq_append]
      by_cases hb : b = '/'
      · subst hb
        right
        exact ⟨L, rfl, cleanUrl_concat_slash L⟩
      · left
        exact cleanUrl_of_non_slash L b hb
  refine ⟨part1, ?_⟩
  intro x hx
  rcases part1 x with h | ⟨q, hq, hcl⟩
  · rw [h, h]
  · subst hq
    rw [hcl]
    rcases List.eq_nil_or_concat q with h0 | ⟨L, b, h0⟩
    · subst h0
      decide
    · subst h0
      rw [List.concat_eq_append] at hx ⊢
      by_cases hb : b = '/'
      · exfalso
        subst hb
        simp [endsWith, isStartOf, List.reverse_append] at hx
      · exact cleanUrl_of_non_slash L b hb

/-- C6 witness: idempotence at the concrete input `a/`. -/
theorem cleanUrl_strip_and_idempotence_witness :
    endsWith "a/".data ['/', '/'] = false ∧
    cleanUrl (cleanUrl "a/".data) = cleanUrl "a/".data :=
  ⟨by decide, cleanUrl_strip_and_idempotence.2 "a/".data (by decide)⟩

/-- C6 counterexample: cleanUrl is not idempotent — on `a//` the first
application leaves `a/`, and a second application strips again. -/
theorem cleanUrl_not_idempotent :
    cleanUrl (cleanUrl "a//".data) ≠ cleanUrl "a//".data := by decide

theorem dropWhile_forall_iff (p : Char → Bool) (l : List Char) :
    (∀ x ∈ l.dropWhile p, p x = true) ↔ (∀ x ∈ l, p x = true) := by
  induction l with
  | nil => simp
  | cons c cs ih =>
    by_cases hc : p c = true
    · simp only [List.dropWhile_cons, hc, if_true, List.mem_cons]
      constructor
      · intro h x hx
        rcases hx with rfl | hx
        · exact hc
        · exact (ih.mp h) x hx
      · intro h x hx
        exact ih.mpr (fun y hy => h y (Or.inr hy)) x hx
    · simp [List.dropWhile_cons, hc]

theorem jsTrim_eq_nil_iff (l : List Char) : jsTrim l = [] ↔ l.all isJsWs = true := by
  unfold jsTrim
  rw [List.reverse_eq_nil_iff, List.dropWhile_eq_nil_iff, List.all_eq_true]
  constructor
  · intro h x hx
    exact (dropWhile_forall_iff isJsWs l).mp (fun y hy => h y (List.mem_reverse.mpr hy)) x hx
  · intro h x hx
    exact (dropWhile_forall_iff isJsWs l).mpr h x (List.mem_reverse.mp hx)

theorem idxOfChar_of_not_contains (c : Char) :
    ∀ l : List Char, containsChar c l = false → idxOfChar c l = l.length := by
  intro l
  induction l with
  | nil => intro _; rfl
  | cons b bs ih =>
    intro h
    simp only [containsChar, Bool.or_eq_false_iff] at h
    simp [idxOfChar, h.1, ih h.2]

/-- C4 (amended): for a final path segment with no surrounding whitespace,
the derived title equals the segment with everything from the first `.`
onward removed, or the `UnknownTitle` placeholder when that removal yields an
empty or whitespace-only string. (On segments with surrounding whitespace
the code instead trims first and slices at the dot index of the untrimmed
segment, see the counterexample.) -/
theorem removeFileType_of_trimmed (seg : List Char) (h : jsTrim seg = seg) :
    removeFileType seg =
      if wsOnly (specStripDot seg) = true then "UnknownTitle".data else specStripDot seg := by
  have key : ∀ x : List Char, ((jsTrim x).length = 0) = (wsOnly x = true) := by
    intro x
    rw [List.length_eq_zero, jsTrim_eq_nil_iff]
    rfl
  unfold removeFileType specStripDot
  by_cases hc : containsChar '.' seg = true
  · simp only [hc, if_true, h, key]
  · have hc' : containsChar '.' seg = false := by
      revert hc
      cases containsChar '.' seg <;> simp
    have hidx : idxOfChar '.' seg = seg.length := idxOfChar_of_not_contains '.' seg hc'
    have k := key seg
    rw [h] at k
    simp only [hc', Bool.false_eq_true, if_false, h, hidx, List.take_length, k]

/-- C4 witness: the formula evaluated at the spec's example item name. -/
theorem removeFileType_of_trimmed_witness :
    jsTrim "Song 1.mp3".data = "Song 1.mp3".data ∧
    removeFileType "Song 1.mp3".data =
      (if wsOnly (specStripDot "Song 1.mp3".data) = true then "UnknownTitle".data
       else specStripDot "Song 1.mp3".data) :=
  ⟨by decide, removeFileType_of_trimmed "Song 1.mp3".data (by decide)⟩

/-- C4 counterexample: the valid item path `/r/Playlists/Jazz/ a` has final
segment ` a`, whose first-dot-onward removal is ` a` itself (not whitespace-
only), yet the code derives the title `a` — it trims the segment first. -/
theorem title_formula_counterexample :
    validateFile exDirs "/r/Playlists/Jazz/ a".data = some " a".data ∧
    wsOnly (specStripDot " a".data) = false ∧
    removeFileType " a".data ≠ specStripDot " a".data := by decide

theorem matchDirAlt_some {root alt path name : List Char}
    (h : matchDirAlt root alt path = some name) :
    path = root ++ ('/' :: (alt ++ ('/' :: name))) ∧
      name.isEmpty = false ∧ name.all isFolderChar = true := by
  simp only [matchDirAlt] at h
  split at h
  · next hs =>
    obtain ⟨t, rfl⟩ := (isStartOf_iff _ _).mp hs
    rw [List.drop_left] at h
    split at h
    · next hcond =>
      injection h with h'
      subst h'
      simp only [Bool.and_eq_true, Bool.not_eq_true'] at hcond
      refine ⟨?_, hcond.1, hcond.2⟩
      simp
    · exact absurd h (by simp)
  · exact absurd h (by simp)

theorem matchFileAlt_some {root alt path item : List Char}
    (h : matchFileAlt root alt path = some item) :
    ∃ coll, path = root ++ ('/' :: (alt ++ ('/' :: (coll ++ ('/' :: item))))) ∧
      coll.isEmpty = false ∧ coll.all isFolderChar = true ∧
      item.isEmpty = false ∧ item.all isFileChar = true := by
  simp only [matchFileAlt] at h
  split at h
  · next hs =>
    obtain ⟨t, rfl⟩ := (isStartOf_iff _ _).mp hs
    rw [List.drop_left] at h
    simp only [matchCollItem] at h
    split at h
    · next item' heq =>
      split at h
      · next hcond =>
        injection h with h'
        subst h'
        simp only [Bool.and_eq_true, Bool.not_eq_true'] at hcond
        refine ⟨t.takeWhile (fun c => c != '/'), ?_,
          hcond.1.1.1, hcond.1.1.2, hcond.1.2, hcond.2⟩
        have ht : t = t.takeWhile (fun c => c != '/') ++ ('/' :: item') := by
          conv_lhs => rw [← List.takeWhile_append_dropWhile (fun c => c != '/') t]
          rw [heq]
        conv_lhs => rw [ht]
        simp
      · exact absurd h (by simp)
    · exact absurd h (by simp)
  · exact absurd h (by simp)

/-- C3 (amended): every accepted path decomposes along the two-or-three
segment grammar under root with the code's actual character classes —
collection names are nonempty runs of letters, digits, spaces and hyphens;
item names are nonempty runs of letters, digits and the ASCII characters
from space (0x20) through dot (0x2E), with any number of dots — and every
path rejected by both validators produces no remote call whatever the gate
or event kind is. -/
theorem validate_respects_grammar (dirs : DirectoriesConfig) (path : List Char) :
    (∀ item, validateFile dirs path = some item →
      ∃ mid coll, (mid = playlistsName dirs ∨ mid = soundboardsName dirs) ∧
        path = dirs.root ++ ('/' :: (mid ++ ('/' :: (coll ++ ('/' :: item))))) ∧
        coll.isEmpty = false ∧ coll.all isFolderChar = true ∧
        item.isEmpty = false ∧ item.all isFileChar = true) ∧
    (∀ name, validateDirectory dirs path = some name →
      ∃ mid, (mid = playlistsName dirs ∨ mid = soundboardsName dirs) ∧
        path = dirs.root ++ ('/' :: (mid ++ ('/' :: name))) ∧
        name.isEmpty = false ∧ name.all isFolderChar = true) ∧
    (validateFile dirs path = none → validateDirectory dirs path = none →
      ∀ (gate : Bool) (act : EventAction) (q : List Event),
        (handleQueue dirs gate (⟨act, path⟩ :: q)).2 = []) := by
  refine ⟨?_, ?_, ?_⟩
  · intro item h
    unfold validateFile at h
    cases hp : matchFileAlt dirs.root (playlistsName dirs) path with
    | some x =>
      rw [hp] at h
      injection h with h'
      subst h'
      obtain ⟨coll, hpath, hc1, hc2, hi1, hi2⟩ := matchFileAlt_some hp
      exact ⟨playlistsName dirs, coll, Or.inl rfl, hpath, hc1, hc2, hi1, hi2⟩
    | none =>
      rw [hp] at h
      obtain ⟨coll, hpath, hc1, hc2, hi1, hi2⟩ := matchFileAlt_some h
      exact ⟨soundboardsName dirs, coll, Or.inr rfl, hpath, hc1, hc2, hi1, hi2⟩
  · intro name h
    unfold validateDirectory at h
    cases hp : matchDirAlt dirs.root (playlistsName dirs) path with
    | some x =>
      rw [hp] at h
      injection h with h'
      subst h'
      obtain ⟨hpath, h1, h2⟩ := matchDirAlt_some hp
      exact ⟨playlistsName dirs, Or.inl rfl, hpath, h1, h2⟩
    | none =>
      rw [hp] at h
      obtain ⟨hpath, h1, h2⟩ := matchDirAlt_some h
      exact ⟨soundboardsName dirs, Or.inr rfl, hpath, h1, h2⟩
  · intro h1 h2 gate act q
    cases act <;> simp [handleQueue, h1, h2]

/-- C3 witness: the grammar decomposition of the example track path. -/
theorem validate_respects_grammar_witness :
    ∃ mid coll, (mid = playlistsName exDirs ∨ mid = soundboardsName exDirs) ∧
      songPath = exDirs.root ++ ('/' :: (mid ++ ('/' :: (coll ++ ('/' :: "Song 1.mp3".data))))) ∧
      coll.isEmpty = false ∧ coll.all isFolderChar = true ∧
      ("Song 1.mp3".data).isEmpty = false ∧ ("Song 1.mp3".data).all isFileChar = true :=
  (validate_respects_grammar exDirs songPath).1 "Song 1.mp3".data (by decide)

/-- C3 counterexample: `/r/Playlists/Jazz/a.b.c` does not match the claimed
grammar (its item name has two dots, not a single literal dot), yet the code
classifies it as an item rather than NotApplicable — the file character
class is a range from space to dot, not letters-digits-space-hyphen-one-dot. -/
theorem item_grammar_counterexample :
    specClaimFileGrammar exDirs "/r/Playlists/Jazz/a.b.c".data = false ∧
    validateFile exDirs "/r/Playlists/Jazz/a.b.c".data = some "a.b.c".data := by decide

theorem filterMap_rp_playlist_part (ps : List RemotePlaylist) :
    ((ps.flatMap fun p => [Effect.call (RemoteCall.removePlaylist p.url), Effect.delay 500]).filterMap
      removedPlaylistUrl) = ps.map fun p => p.url := by
  induction ps with
  | nil => rfl
  | cons p rest ih => simp [List.flatMap_cons, List.filterMap_cons, removedPlaylistUrl, ih]

theorem filterMap_rp_soundboard_part (sbs : List RemoteSoundboard) :
    ((sbs.flatMap fun s => [Effect.call (RemoteCall.removeSoundboard s.url), Effect.delay 500]).filterMap
      removedPlaylistUrl) = [] := by
  induction sbs with
  | nil => rfl
  | cons s rest ih => simp [List.flatMap_cons, List.filterMap_cons, removedPlaylistUrl, ih]

theorem filterMap_rs_playlist_part (ps : List RemotePlaylist) :
    ((ps.flatMap fun p => [Effect.call (RemoteCall.removePlaylist p.url), Effect.delay 500]).filterMap
      removedSoundboardUrl) = [] := by
  induction ps with
  | nil => rfl
  | cons p rest ih => simp [List.flatMap_cons, List.filterMap_cons, removedSoundboardUrl, ih]

theorem filterMap_rs_soundboard_part (sbs : List RemoteSoundboard) :
    ((sbs.flatMap fun s => [Effect.call (RemoteCall.removeSoundboard s.url), Effect.delay 500]).filterMap
      removedSoundboardUrl) = sbs.map fun s => s.url := by
  induction sbs with
  | nil => rfl
  | cons s rest ih => simp [List.flatMap_cons, List.filterMap_cons, removedSoundboardUrl, ih]

theorem delayFollows_nil : delayFollows [] := by
  intro i a h
  simp at h

theorem delayFollows_pair (c : RemoteCall) (tail : List Effect) (ht : delayFollows tail) :
    delayFollows (Effect.call c :: Effect.delay 500 :: tail) := by
  intro i a h hrem
  match i with
  | 0 => rfl
  | 1 =>
    exfalso
    simp only [List.get?] at h
    injection h with h'
    rw [← h'] at hrem
    simp [isRemovalEff] at hrem
  | (n + 2) =>
    exact ht n a h hrem

theorem delayFollows_flatMap {α : Type} (g : α → RemoteCall) :
    ∀ (xs : List α) (rest : List Effect), delayFollows rest →
      delayFollows ((xs.flatMap fun x => [Effect.call (g x), Effect.delay 500]) ++ rest) := by
  intro xs
  induction xs with
  | nil =>
    intro rest h
    simpa using h
  | cons x xs ih =>
    intro rest h
    have hsh : ((x :: xs).flatMap fun y => [Effect.call (g y), Effect.delay 500]) ++ rest =
        Effect.call (g x) :: Effect.delay 500 ::
          ((xs.flatMap fun y => [Effect.call (g y), Effect.delay 500]) ++ rest) := by
      simp
    rw [hsh]
    exact delayFollows_pair (g x) _ (ih rest h)

/-- C7: against a remote state listing K playlists and J soundboards, purge's
awaited trace contains exactly the K removePlaylist calls (one per listed
playlist url, in listing order), exactly the J removeSoundboard calls (one
per listed soundboard url, in listing order), with every playlist removal
before every soundboard removal, every removal immediately followed by the
fixed delay 500 pause, and nothing in the trace beyond those removals and
pauses (no filesystem or queue operation). -/
theorem purge_trace (st : RemoteState) :
    ((purge st).filterMap removedPlaylistUrl = st.playlists.map fun p => p.url) ∧
    ((purge st).filterMap removedSoundboardUrl = st.soundboards.map fun s => s.url) ∧
    (∃ l₁ l₂, purge st = l₁ ++ l₂ ∧
      (∀ a ∈ l₁, (∃ u, a = Effect.call (RemoteCall.removePlaylist u)) ∨ a = Effect.delay 500) ∧
      (∀ a ∈ l₂, (∃ u, a = Effect.call (RemoteCall.removeSoundboard u)) ∨ a = Effect.delay 500)) ∧
    delayFollows (purge st) := by
  refine ⟨?_, ?_, ?_, ?_⟩
  · rw [purge, List.filterMap_append, filterMap_rp_playlist_part, filterMap_rp_soundboard_part,
      List.append_nil]
  · rw [purge, List.filterMap_append, filterMap_rs_playlist_part, filterMap_rs_soundboard_part,
      List.nil_append]
  · refine ⟨_, _, rfl, ?_, ?_⟩
    · intro a ha
      rw [List.mem_flatMap] at ha
      obtain ⟨p, _, hmem⟩ := ha
      simp only [List.mem_cons, List.not_mem_nil, or_false] at hmem
      rcases hmem with rfl | rfl
      · exact Or.inl ⟨p.url, rfl⟩
      · exact Or.inr rfl
    · intro a ha
      rw [List.mem_flatMap] at ha
      obtain ⟨s, _, hmem⟩ := ha
      simp only [List.mem_cons, List.not_mem_nil, or_false] at hmem
      rcases hmem with rfl | rfl
      · exact Or.inl ⟨s.url, rfl⟩
      · exact Or.inr rfl
  · have hsb : delayFollows
        ((st.soundboards.flatMap fun s =>
          [Effect.call (RemoteCall.removeSoundboard s.url), Effect.delay 500]) ++ []) :=
      delayFollows_flatMap (fun s => RemoteCall.removeSoundboard s.url) st.soundboards []
        delayFollows_nil
    rw [List.append_nil] at hsb
    exact delayFollows_flatMap (fun p => RemoteCall.removePlaylist p.url) st.playlists _ hsb

/-- C7 witness: in the concrete remote state with one playlist and one
soundboard, the first removal is immediately followed by the delay. -/
theorem purge_trace_witness : (purge exRemote).get? 1 = some (Effect.delay 500) :=
  (purge_trace exRemote).2.2.2 0 (Effect.call (RemoteCall.removePlaylist "/p1".data))
    (by decide) (by decide)

theorem replaceFirst_at (pat : List Char) :
    ∀ (k : Nat) (s : List Char), (∀ i, i < k → isStartOf pat (s.drop i) = false) →
      isStartOf pat (s.drop k) = true →
      replaceFirst pat s = s.take k ++ s.drop (k + pat.length) := by
  intro k
  induction k with
  | zero =>
    intro s h0 hk
    cases s with
    | nil =>
      have hp : pat = [] := by
        cases pat with
        | nil => rfl
        | cons a as => simp [isStartOf] at hk
      subst hp
      simp [replaceFirst]
    | cons c cs =>
      simp only [List.drop_zero] at hk
      simp [replaceFirst, hk]
  | succ k ih =>
    intro s h0 hk
    have h00 : isStartOf pat s = false := by
      have := h0 0 (Nat.succ_pos k)
      simpa using this
    cases s with
    | nil =>
      exfalso
      have hp : pat = [] := by
        cases pat with
        | nil => rfl
        | cons a as => simp [isStartOf] at hk
      rw [hp] at h00
      simp [isStartOf] at h00
    | cons c cs =>
      have hrec := ih cs
        (fun i hi => by
          have := h0 (i + 1) (Nat.succ_lt_succ hi)
          simpa using this)
        (by simpa using hk)
      have harith : k + 1 + pat.length = (k + pat.length) + 1 := by omega
      simp only [replaceFirst, h00, Bool.false_eq_true, if_false, hrec, harith,
        List.take_succ_cons, List.drop_succ_cons, List.cons_append]

/-- C10: for every dispatched file event the collection url sent to the
remote service is `cleanUrl (replaceFirst item path)` — the first occurrence
of the matched item name deleted from the full path, then one trailing slash
stripped; whenever the item name occurs exactly once as a substring of the
path this equals the parent directory of the file, but not in general (in
`/r/Playlists/a/a` the first occurrence of `a` is inside `Playlists`). -/
theorem collection_url :
    (∀ (dirs : DirectoriesConfig) (path f : List Char) (q : List Event) (act : EventAction),
      (act = EventAction.add ∨ act = EventAction.unlink) →
      validateFile dirs path = some f →
      ∃ c, (handleQueue dirs true (⟨act, path⟩ :: q)).2 = [c] ∧
        collectionUrlOf c = some (cleanUrl (replaceFirst f path))) ∧
    (∀ parent f : List Char, occCount f (parent ++ ('/' :: f)) = 1 →
      cleanUrl (replaceFirst f (parent ++ ('/' :: f))) = parent) ∧
    cleanUrl (replaceFirst "a".data "/r/Playlists/a/a".data) ≠ "/r/Playlists/a".data := by
  refine ⟨?_, ?_, by decide⟩
  · intro dirs path f q act hact hf
    rcases hact with rfl | rfl
    · by_cases hb : containsSub path (playlistsName dirs) = true
      · refine ⟨RemoteCall.addTrack (removeFileType f) (cleanUrl (prepareFilePath path))
          (cleanUrl (replaceFirst f path)), ?_, ?_⟩
        · simp [handleQueue, hf, hb]
        · simp [collectionUrlOf]
      · have hb' : containsSub path (playlistsName dirs) = false := by
          revert hb
          cases containsSub path (playlistsName dirs) <;> simp
        refine ⟨RemoteCall.addSound (removeFileType f) (cleanUrl (prepareFilePath path))
          (cleanUrl (replaceFirst f path)) 500 500 true 100, ?_, ?_⟩
        · simp [handleQueue, hf, hb']
        · simp [collectionUrlOf]
    · by_cases hb : containsSub path (playlistsName dirs) = true
      · refine ⟨RemoteCall.removeTrack (cleanUrl (prepareFilePath path))
          (cleanUrl (replaceFirst f path)), ?_, ?_⟩
        · simp [handleQueue, hf, hb]
        · simp [collectionUrlOf]
      · have hb' : containsSub path (playlistsName dirs) = false := by
          revert hb
          cases containsSub path (playlistsName dirs) <;> simp
        refine ⟨RemoteCall.removeSound (cleanUrl (prepareFilePath path))
          (cleanUrl (replaceFirst f path)), ?_, ?_⟩
        · simp [handleQueue, hf, hb']
        · simp [collectionUrlOf]
  · intro parent f hocc
    have hsplit : parent ++ ('/' :: f) = (parent ++ ['/']) ++ f := by simp
    have hlen : (parent ++ ['/']).length = parent.length + 1 := by simp
    have hdropk : (parent ++ ('/' :: f)).drop (parent.length + 1) = f := by
      rw [hsplit, ← hlen, List.drop_left]
    have hk : isStartOf f ((parent ++ ('/' :: f)).drop (parent.length + 1)) = true := by
      rw [hdropk]
      exact (isStartOf_iff f f).mpr ⟨[], by simp⟩
    have hslen : (parent ++ ('/' :: f)).length = parent.length + 1 + f.length := by
      simp
      omega
    unfold occCount at hocc
    obtain ⟨a, ha⟩ := List.length_eq_one.mp hocc
    have hkmem : parent.length + 1 ∈ (List.range ((parent ++ ('/' :: f)).length + 1)).filter
        (fun i => isStartOf f ((parent ++ ('/' :: f)).drop i)) := by
      refine List.mem_filter.mpr ⟨List.mem_range.mpr ?_, hk⟩
      omega
    rw [ha] at hkmem
    have hka : parent.length + 1 = a := by
      simpa using hkmem
    have hbefore : ∀ i, i < parent.length + 1 →
        isStartOf f ((parent ++ ('/' :: f)).drop i) = false := by
      intro i hi
      by_contra hcon
      have hcon' : isStartOf f ((parent ++ ('/' :: f)).drop i) = true := by
        revert hcon
        cases isStartOf f ((parent ++ ('/' :: f)).drop i) <;> simp
      have himem : i ∈ (List.range ((parent ++ ('/' :: f)).length + 1)).filter
          (fun j => isStartOf f ((parent ++ ('/' :: f)).drop j)) := by
        refine List.mem_filter.mpr ⟨List.mem_range.mpr ?_, hcon'⟩
        omega
      rw [ha] at himem
      have : i = a := by simpa using himem
      omega
    rw [replaceFirst_at f (parent.length + 1) (parent ++ ('/' :: f)) hbefore hk]
    have htake : (parent ++ ('/' :: f)).take (parent.length + 1) = parent ++ ['/'] := by
      rw [hsplit, ← hlen, List.take_left]
    have hdrop : (parent ++ ('/' :: f)).drop (parent.length + 1 + f.length) = [] := by
      apply List.drop_eq_nil_of_le
      omega
    rw [htake, hdrop, List.append_nil]
    exact cleanUrl_concat_slash parent

/-- C10 witness: the unique-occurrence case at the spec's example track. -/
theorem collection_url_witness :
    cleanUrl (replaceFirst "Song 1.mp3".data
      ("/r/Playlists/Jazz".data ++ ('/' :: "Song 1.mp3".data))) = "/r/Playlists/Jazz".data :=
  collection_url.2.1 "/r/Playlists/Jazz".data "Song 1.mp3".data (by decide)

end Kenku
